import Mathlib

/-!
Verification of the conversation state & streaming engine of the `patina`
repository (crates `core`: `state.rs`, `store.rs`, `llm.rs`).

Shallow embedding conventions:
* `Uuid` and `Timestamp` are modelled as `Nat`.  Freshly generated values
  (`Uuid::new_v4()`, `Utc::now()`) are passed in explicitly at each call site
  that generates one in the source.
* `f32` temperatures are never inspected by the code under verification, only
  formatted with `{:?}`; they are modelled by the opaque structure `F32`
  carrying the text of that rendering.
* Filesystem writes performed by `TranscriptStore` are recorded as a list of
  `StoreEffect` values; the file contents themselves are modelled for the
  persistence claims as association lists of JSON-lines.
* `serde_json` serialisation of a `ChatMessage` is modelled by an abstract
  codec pair `enc : ChatMessage → String` / `dec : String → Except String
  ChatMessage`; theorems that need the library's round-trip guarantee take it
  as an explicit hypothesis.
* Streams (`tokio::sync::mpsc` channels) are modelled by the list of items
  that is sent over them, in order.
-/

namespace Patina

abbrev Uuid := Nat
abbrev Timestamp := Nat

/-- Model of `f32`: the code only ever forwards temperatures and formats them
with `{:?}`, so an `f32` is represented by that textual rendering. -/
structure F32 where
  text : String
deriving DecidableEq, Repr

/-- `state.rs`: `MessageRole`. -/
inductive MessageRole
  | system
  | user
  | assistant
  | tool
deriving DecidableEq, Repr

/-- `state.rs`: `ToolCallStatus`. -/
inductive ToolCallStatus
  | pending
  | completed
  | failed
deriving DecidableEq, Repr

/-- `state.rs`: `ToolCall`.  `arguments: serde_json::Value` is opaque to the
core (only transported and persisted), modelled by its serialised text. -/
structure ToolCall where
  id : Uuid
  name : String
  arguments : String
  status : ToolCallStatus
  response : Option String
deriving DecidableEq, Repr

/-- `state.rs`: `ChatMessage`. -/
structure ChatMessage where
  id : Uuid
  role : MessageRole
  content : String
  created_at : Timestamp
  tool_calls : List ToolCall
deriving DecidableEq, Repr

/-- `state.rs`: `Conversation`. -/
structure Conversation where
  id : Uuid
  title : String
  created_at : Timestamp
  updated_at : Timestamp
  messages : List ChatMessage
deriving DecidableEq, Repr

/-- `state.rs`: `Conversation::new()`; `now` stands for `Utc::now()` and `id`
for `Uuid::new_v4()`. -/
def Conversation.new (id : Uuid) (now : Timestamp) : Conversation :=
  { id := id
    title := "New chat"
    created_at := now
    updated_at := now
    messages := [] }

/-- `state.rs`: `Conversation::with_id(id, title)`. -/
def Conversation.with_id (id : Uuid) (title : String) (now : Timestamp) : Conversation :=
  { id := id
    title := title
    created_at := now
    updated_at := now
    messages := [] }

/-- Rust `str::trim`: drop leading and trailing whitespace (modelled with
`Char.isWhitespace`). -/
def rust_trim (s : String) : String :=
  String.mk (((s.toList.dropWhile Char.isWhitespace).reverse.dropWhile
    Char.isWhitespace).reverse)

/-- `state.rs`: the loop body of `snippet`: pull up to `fuel` characters into
`acc`; if the iterator is exhausted early the Rust code returns the whole
trimmed string (signalled here by `none`), otherwise it pushes `'…'`. -/
def snippetLoop : Nat → List Char → String → Option String
  | 0, _, acc => some (acc.push '…')
  | _ + 1, [], _ => none
  | n + 1, c :: cs, acc => snippetLoop n cs (acc.push c)

/-- `state.rs`: `fn snippet(content: &str) -> String` with `MAX = 42`. -/
def snippet (content : String) : String :=
  let trimmed := rust_trim content
  match snippetLoop 42 trimmed.toList "" with
  | some acc => acc
  | none => trimmed

/-- `state.rs`: `Conversation::add_message`.  Returns the updated conversation
and the `title_changed` flag; `now` stands for the `Utc::now()` call inside.
(The `tool_calls.is_empty` branch of the source replaces an empty list by an
empty list and is a no-op.) -/
def Conversation.add_message (c : Conversation) (now : Timestamp) (message : ChatMessage) :
    Conversation × Bool :=
  let title_changed := c.messages.isEmpty && message.role == MessageRole.user
  let title := if title_changed then snippet message.content else c.title
  ({ c with title := title, messages := c.messages ++ [message], updated_at := now },
   title_changed)

/-- `state.rs`: `ConversationSummary`. -/
structure ConversationSummary where
  id : Uuid
  title : String
  updated_at : Timestamp
  message_count : Nat
deriving DecidableEq, Repr

/-- `state.rs`: `InnerState`. -/
structure InnerState where
  conversations : List Conversation
  current_session : Option Uuid
deriving DecidableEq, Repr

/-- One recorded call into `TranscriptStore` (the persistence layer). -/
inductive StoreEffect
  | append (conversation_id : Uuid) (message : ChatMessage)
  | persistMeta (conversation_id : Uuid) (title : String)
  | deleteConv (id : Uuid)
deriving DecidableEq, Repr

/-- `llm.rs`: `StreamChunk`. -/
structure StreamChunk where
  delta : String
  done : Bool
deriving DecidableEq, Repr

/-- `state.rs`: `AppState::active_conversation`. -/
def active_conversation (s : InnerState) : Option Conversation :=
  match s.current_session with
  | some id => s.conversations.find? (fun c => c.id == id)
  | none => s.conversations.head?

/-- `state.rs`: `AppState::select_conversation`. -/
def select_conversation (s : InnerState) (id : Uuid) : InnerState :=
  if s.conversations.any (fun c => c.id == id) then
    { s with current_session := some id }
  else s

/-- `state.rs`: `AppState::start_new_conversation`; `freshId`/`now` stand for
the `Uuid::new_v4()`/`Utc::now()` inside `Conversation::new()`.  Returns the
new id, the updated state and the persistence calls made. -/
def start_new_conversation (s : InnerState) (freshId : Uuid) (now : Timestamp) :
    Uuid × InnerState × List StoreEffect :=
  let conversation := Conversation.new freshId now
  let conversations := conversation :: s.conversations
  let id := conversation.id
  (id, { conversations := conversations, current_session := some id },
   [StoreEffect.persistMeta id conversation.title])

/-- `state.rs`: `AppState::delete_conversation`.  Returns whether deletion
occurred, the updated state and the persistence calls made. -/
def delete_conversation (s : InnerState) (id : Uuid) :
    Bool × InnerState × List StoreEffect :=
  match s.conversations.findIdx? (fun c => c.id == id) with
  | some position =>
      let conversations := s.conversations.eraseIdx position
      let current_session :=
        if s.current_session == some id then
          conversations.head?.map (fun c => c.id)
        else s.current_session
      (true, { conversations := conversations, current_session := current_session },
       [StoreEffect.deleteConv id])
  | none => (false, s, [])

/-- `state.rs`: `AppState::ensure_conversation`.  Returns the updated state and
the id of the conversation the returned `&mut` reference points at.  `freshId`
and `now` stand for the values generated by `Conversation::new()` when a fresh
conversation has to be pushed. -/
def ensure_conversation (s : InnerState) (freshId : Uuid) (now : Timestamp) :
    InnerState × Uuid :=
  let hit : Option Uuid :=
    match s.current_session with
    | some id => if s.conversations.any (fun c => c.id == id) then some id else none
    | none => none
  match hit with
  | some id => (s, id)
  | none =>
      let conversations :=
        if s.conversations.isEmpty then s.conversations ++ [Conversation.new freshId now]
        else s.conversations
      match conversations with
      | first :: _ =>
          ({ conversations := conversations, current_session := some first.id }, first.id)
      | [] => (s, 0) -- unreachable: `conversations` is non-empty after the push

/-- `state.rs`: the shared block `conversation.add_message(msg);
store.append_message(conversation.id, &msg)?; if title_changed {
store.persist_metadata(conversation)?; }` applied to the first conversation
with the given id (the source reaches it through `iter_mut().find`, or through
the reference returned by `ensure_conversation`).  If no conversation carries
the id, nothing happens (the `send_user_message` finalisation and the
streaming finalisation silently skip in that case). -/
def add_and_persist_list (conversations : List Conversation) (conversation_id : Uuid)
    (message : ChatMessage) (now : Timestamp) : List Conversation × List StoreEffect :=
  match conversations with
  | [] => ([], [])
  | c :: rest =>
      if c.id == conversation_id then
        let (c2, title_changed) := c.add_message now message
        (c2 :: rest,
         StoreEffect.append c2.id message ::
           (if title_changed then [StoreEffect.persistMeta c2.id c2.title] else []))
      else
        let (rest2, effects) := add_and_persist_list rest conversation_id message now
        (c :: rest2, effects)

/-- Lift of `add_and_persist_list` to the whole state (the selection pointer is
not touched by any of the append blocks). -/
def add_and_persist (s : InnerState) (conversation_id : Uuid) (message : ChatMessage)
    (now : Timestamp) : InnerState × List StoreEffect :=
  let (conversations, effects) :=
    add_and_persist_list s.conversations conversation_id message now
  ({ s with conversations := conversations }, effects)

/-- `state.rs`: `AppState::conversation_history`. -/
def conversation_history (s : InnerState) (id : Uuid) : List ChatMessage :=
  match s.conversations.find? (fun c => c.id == id) with
  | some c => c.messages
  | none => []

/-! ## Language model driver (`llm.rs`), mock provider only -/

/-- `llm.rs`: `LlmProviderKind`. -/
inductive LlmProviderKind
  | openAi
  | azureOpenAi
  | mock
deriving DecidableEq, Repr

/-- `llm.rs`: `LlmConfig`. -/
structure LlmConfig where
  provider : LlmProviderKind
  model : Option String
  temperature : Option F32
deriving DecidableEq, Repr

/-- `llm.rs`: `LlmConfig::new`. -/
def LlmConfig.new (provider : LlmProviderKind) (model : Option String) : LlmConfig :=
  { provider := provider, model := model, temperature := none }

/-- `llm.rs`: `ModelUsage`. -/
structure ModelUsage where
  prompt_tokens : Nat
  completion_tokens : Nat
deriving DecidableEq, Repr

/-- `llm.rs`: `ChatResponse`. -/
structure ChatResponse where
  message : ChatMessage
  usage : Option ModelUsage
deriving DecidableEq, Repr

/-- `llm.rs`: `LlmStatus`. -/
inductive LlmStatus
  | ready
  | unconfigured (reason : String)
deriving DecidableEq, Repr

/-- Rendering of one character inside Rust's `{:?}` formatting of a string. -/
def rustDebugChar (c : Char) : String :=
  if c = '"' then "\\\""
  else if c = '\\' then "\\\\"
  else if c = '\n' then "\\n"
  else if c = '\t' then "\\t"
  else if c = '\r' then "\\r"
  else String.singleton c

/-- Rust `{:?}` formatting of a `&str` (quote and escape). -/
def rustDebugStr (s : String) : String :=
  "\"" ++ String.join (s.toList.map rustDebugChar) ++ "\""

/-- Rust `{:?}` formatting of an `Option<f32>` (the `f32` rendering itself is
the opaque text carried by `F32`). -/
def rustDebugOptF32 : Option F32 → String
  | some t => "Some(" ++ t.text ++ ")"
  | none => "None"

/-- `llm.rs`: the prompt selection shared by `synthetic_response` and
`MockProvider::send_chat_stream`: content of the last `User` message, or the
fixed fallback. -/
def mock_prompt (messages : List ChatMessage) : String :=
  match messages.reverse.find? (fun msg => msg.role == MessageRole.user) with
  | some msg => msg.content
  | none => "How can I help you today?"

/-- `llm.rs`: `synthetic_response` (the sleep is irrelevant to the value).
`id`/`now` stand for `Uuid::new_v4()`/`Utc::now()`. -/
def synthetic_response (provider_name : String) (messages : List ChatMessage)
    (config : LlmConfig) (id : Uuid) (now : Timestamp) : ChatResponse :=
  let prompt := mock_prompt messages
  let reply :=
    "[" ++ provider_name ++ "] Model "
      ++ rustDebugStr (config.model.getD "default")
      ++ " (temp " ++ rustDebugOptF32 config.temperature
      ++ "): received '" ++ prompt ++ "'."
  { message :=
      { id := id
        role := MessageRole.assistant
        content := reply
        created_at := now
        tool_calls := [] }
    usage := some { prompt_tokens := messages.length * 10, completion_tokens := 25 } }

/-- Rust `slice::chunks(5)`: split into groups of five elements, the last
group holding the at most five remaining ones. -/
def chunks5 : List Char → List (List Char)
  | [] => []
  | [a] => [[a]]
  | [a, b] => [[a, b]]
  | [a, b, c] => [[a, b, c]]
  | [a, b, c, d] => [[a, b, c, d]]
  | a :: b :: c :: d :: e :: rest => [a, b, c, d, e] :: chunks5 rest

/-- `llm.rs`: `MockProvider::send_chat`. -/
def MockProvider.send_chat (messages : List ChatMessage) (config : LlmConfig)
    (id : Uuid) (now : Timestamp) : Except String ChatResponse :=
  Except.ok (synthetic_response "Mock" messages config id now)

/-- `llm.rs`: `MockProvider::send_chat_stream` — the list of items the spawned
task sends over the channel: the reply split into 5-character chunks with
`done = false`, then the completion marker. -/
def MockProvider.send_chat_stream (messages : List ChatMessage) (config : LlmConfig) :
    Except String (List (Except String StreamChunk)) :=
  let prompt := mock_prompt messages
  let reply :=
    "[Mock] Model "
      ++ rustDebugStr (config.model.getD "default")
      ++ " (temp " ++ rustDebugOptF32 config.temperature
      ++ "): received '" ++ prompt ++ "'."
  Except.ok
    ((chunks5 reply.toList).map
        (fun chunk => Except.ok { delta := String.mk chunk, done := false })
      ++ [Except.ok { delta := "", done := true }])

/-- `llm.rs`: `LlmDriver` (only the mock provider is modelled; `provider` is
`true` when a provider is present). -/
structure LlmDriver where
  config : Option LlmConfig
  provider : Bool
  status : LlmStatus
deriving DecidableEq, Repr

/-- `llm.rs`: `LlmDriver::configured_mock`. -/
def LlmDriver.configured_mock (model : Option String) : LlmDriver :=
  { config := some (LlmConfig.new LlmProviderKind.mock model)
    provider := true
    status := LlmStatus.ready }

/-- `llm.rs`: the effective-config computation shared by `LlmDriver::respond`
and `LlmDriver::respond_streaming`. -/
def effective_config (config : LlmConfig) (model_override : Option String)
    (temperature : Option F32) : LlmConfig :=
  let withModel :=
    match model_override with
    | some model => { config with model := some model }
    | none => config
  { withModel with temperature := temperature }

/-- `llm.rs`: `LlmDriver::respond`, dispatching to the mock provider. -/
def LlmDriver.respond (driver : LlmDriver) (history : List ChatMessage)
    (model_override : Option String) (temperature : Option F32)
    (id : Uuid) (now : Timestamp) : Except String ChatResponse :=
  match driver.provider, driver.config with
  | true, some config =>
      MockProvider.send_chat history (effective_config config model_override temperature) id now
  | _, _ =>
      Except.error
        (match driver.status with
         | LlmStatus.ready => "AI driver not initialized"
         | LlmStatus.unconfigured msg => msg)

/-- `llm.rs`: `LlmDriver::respond_streaming`, dispatching to the mock
provider. -/
def LlmDriver.respond_streaming (driver : LlmDriver) (history : List ChatMessage)
    (model_override : Option String) (temperature : Option F32) :
    Except String (List (Except String StreamChunk)) :=
  match driver.provider, driver.config with
  | true, some config =>
      MockProvider.send_chat_stream history (effective_config config model_override temperature)
  | _, _ =>
      Except.error
        (match driver.status with
         | LlmStatus.ready => "AI driver not initialized"
         | LlmStatus.unconfigured msg => msg)

/-- Concatenation of the deltas of all non-done chunks a stream emits
(error items carry no delta). -/
def stream_text (items : List (Except String StreamChunk)) : String :=
  match items with
  | [] => ""
  | Except.ok chunk :: rest =>
      (if chunk.done then "" else chunk.delta) ++ stream_text rest
  | Except.error _ :: rest => stream_text rest

/-! ## Send orchestration (`state.rs`)

The `await` of the model call releases the state lock, so other operations may
mutate the state before the reply is handled; that interleaving is modelled by
an explicit `interfere : InnerState → InnerState` applied at the suspension
point.  The model call itself is an oracle `respond` (respectively a list of
stream items). -/

instance {ε α : Type} [DecidableEq ε] [DecidableEq α] : DecidableEq (Except ε α)
  | Except.error e, Except.error f =>
      if h : e = f then Decidable.isTrue (congrArg Except.error h)
      else Decidable.isFalse (fun hh => h (Except.error.inj hh))
  | Except.error _, Except.ok _ => Decidable.isFalse (fun hh => Except.noConfusion hh)
  | Except.ok _, Except.error _ => Decidable.isFalse (fun hh => Except.noConfusion hh)
  | Except.ok a, Except.ok b =>
      if h : a = b then Decidable.isTrue (congrArg Except.ok h)
      else Decidable.isFalse (fun hh => h (Except.ok.inj hh))

/-- Result of `AppState::send_user_message`: final state, persistence calls
made, and the returned `Result<()>` (the state mutations performed before a
failure remain, as in the source where they happen through `&self`). -/
structure SendResult where
  state : InnerState
  effects : List StoreEffect
  result : Except String Unit
deriving DecidableEq, Repr

/-- `state.rs`: `AppState::send_user_message`.  `msgId`/`now1` stand for the
`ChatMessage::new` generation, `freshConvId` for a conversation possibly
created by `ensure_conversation`, `now2` for the `Utc::now()` of the assistant
append.  `respond` is the model-driver oracle and `interfere` the concurrent
mutation happening while the lock is released during the `await`. -/
def send_user_message (s : InnerState) (content : String)
    (msgId freshConvId : Uuid) (now1 : Timestamp)
    (respond : List ChatMessage → Except String ChatResponse)
    (interfere : InnerState → InnerState) (now2 : Timestamp) : SendResult :=
  if rust_trim content = "" then
    { state := s, effects := [], result := Except.ok () }
  else
    let message : ChatMessage :=
      { id := msgId, role := MessageRole.user, content := content,
        created_at := now1, tool_calls := [] }
    let (s0, conversation_id) := ensure_conversation s freshConvId now1
    let (s1, effects1) := add_and_persist s0 conversation_id message now1
    let history := conversation_history s1 conversation_id
    match respond history with
    | Except.error e => { state := s1, effects := effects1, result := Except.error e }
    | Except.ok response =>
        let assistant_message := response.message
        let s2 := interfere s1
        let (s3, effects2) := add_and_persist s2 conversation_id assistant_message now2
        { state := s3, effects := effects1 ++ effects2, result := Except.ok () }

/-- `state.rs`: the task spawned by `send_user_message_streaming` (lines
302–355).  The only state access happens when the `done` chunk arrives, so the
task is parameterised by the state `s` it observes at that moment.  Returns
the items sent on the outbound channel, the state after finalisation and the
persistence calls made. -/
def streaming_task (s : InnerState) (conversation_id assistant_id : Uuid)
    (now : Timestamp) :
    List (Except String StreamChunk) → String →
      List (Except String StreamChunk) × InnerState × List StoreEffect
  | [], _ => ([], s, [])
  | Except.ok chunk :: rest, accumulated_content =>
      if chunk.done then
        let assistant_message : ChatMessage :=
          { id := assistant_id, role := MessageRole.assistant,
            content := accumulated_content, created_at := now, tool_calls := [] }
        let (s2, effects) := add_and_persist s conversation_id assistant_message now
        ([Except.ok { delta := "", done := true }], s2, effects)
      else
        let (out, s2, effects) :=
          streaming_task s conversation_id assistant_id now rest
            (accumulated_content ++ chunk.delta)
        (Except.ok chunk :: out, s2, effects)
  | Except.error e :: _, _ => ([Except.error e], s, [])

/-- `state.rs`: `AppState::send_user_message_streaming` composed with its
spawned task.  `blankId` stands for the `Uuid::new_v4()` returned on blank
content, `assistantId` for the pre-allocated assistant message id, `nowDone`
for the `Utc::now()` at finalisation.  `respond_streaming` is the provider
oracle (the list of items the provider stream will deliver) and `interfere`
the concurrent mutation between stream start and finalisation.  Returns the
final state, the persistence calls, and — mirroring the `Ok((assistant_id,
rx))` return — the id handed to the caller together with the items the caller
receives on the outbound channel. -/
def run_streaming_send (s : InnerState) (content : String)
    (msgId freshConvId assistantId blankId : Uuid) (now : Timestamp)
    (respond_streaming : List ChatMessage → Except String (List (Except String StreamChunk)))
    (interfere : InnerState → InnerState) (nowDone : Timestamp) :
    InnerState × List StoreEffect ×
      Except String (Uuid × List (Except String StreamChunk)) :=
  if rust_trim content = "" then
    (s, [], Except.ok (blankId, [Except.ok { delta := "", done := true }]))
  else
    let message : ChatMessage :=
      { id := msgId, role := MessageRole.user, content := content,
        created_at := now, tool_calls := [] }
    let (s0, conversation_id) := ensure_conversation s freshConvId now
    let (s1, effects1) := add_and_persist s0 conversation_id message now
    let history := conversation_history s1 conversation_id
    match respond_streaming history with
    | Except.error e => (s1, effects1, Except.error e)
    | Except.ok stream_rx =>
        let sDone := interfere s1
        let (out, s2, effects2) :=
          streaming_task sDone conversation_id assistantId nowDone stream_rx ""
        (s2, effects1 ++ effects2, Except.ok (assistantId, out))

/-! ## Transcript store (`store.rs`)

The `conversations/` directory is modelled as an association list from
conversation id to the lines of its `.jsonl` file (in creation order), plus an
association list for the `.meta.json` titles.  `serde_json` is the abstract
codec `enc`/`dec`. -/

/-- `store.rs`: `append_message` — append one encoded line to the
conversation's log, creating the file lazily. -/
def append_line : List (Uuid × List String) → Uuid → String → List (Uuid × List String)
  | [], id, line => [(id, [line])]
  | (fid, lines) :: rest, id, line =>
      if fid == id then (fid, lines ++ [line]) :: rest
      else (fid, lines) :: append_line rest id line

/-- `store.rs`: `TranscriptStore::append_message`. -/
def append_message (enc : ChatMessage → String) (files : List (Uuid × List String))
    (conversation_id : Uuid) (message : ChatMessage) : List (Uuid × List String) :=
  append_line files conversation_id (enc message)

/-- `store.rs`: `TranscriptStore::persist_metadata` — overwrite (or create)
the conversation's `.meta.json` with its title. -/
def persist_metadata : List (Uuid × String) → Uuid → String → List (Uuid × String)
  | [], id, title => [(id, title)]
  | (mid, old) :: rest, id, title =>
      if mid == id then (mid, title) :: rest
      else (mid, old) :: persist_metadata rest id title

/-- `store.rs`: `TranscriptStore::read_metadata`. -/
def read_metadata (metas : List (Uuid × String)) (id : Uuid) : Option String :=
  (metas.find? (fun p => p.1 == id)).map (fun p => p.2)

/-- `store.rs`: the per-file replay loop of `load_conversations`: skip lines
that are blank after trimming, decode every other line (`?` propagates a
decode failure), and `add_message` each decoded message.  The clock ticks at
each `Utc::now()` inside `add_message`. -/
def replay_lines (dec : String → Except String ChatMessage) :
    List String → Conversation → Timestamp → Except String (Conversation × Timestamp)
  | [], c, clock => Except.ok (c, clock)
  | line :: rest, c, clock =>
      if rust_trim line = "" then replay_lines dec rest c clock
      else
        match dec line with
        | Except.error e => Except.error e
        | Except.ok message =>
            replay_lines dec rest (c.add_message clock message).1 (clock + 1)

/-- `store.rs`: the file loop of `load_conversations` before sorting: each
`.jsonl` file becomes a `Conversation::with_id(id, "Restored conversation")`
replayed from its lines, with the title overridden by the metadata file when
one exists; a decode failure propagates out of the whole loop. -/
def load_loop (dec : String → Except String ChatMessage) (metas : List (Uuid × String)) :
    List (Uuid × List String) → Timestamp → Except String (List Conversation)
  | [], _ => Except.ok []
  | (id, lines) :: rest, clock =>
      let conversation := Conversation.with_id id "Restored conversation" clock
      match replay_lines dec lines conversation (clock + 1) with
      | Except.error e => Except.error e
      | Except.ok (c1, clock2) =>
          let c2 :=
            match read_metadata metas id with
            | some title => { c1 with title := title }
            | none => c1
          match load_loop dec metas rest clock2 with
          | Except.error e => Except.error e
          | Except.ok others => Except.ok (c2 :: others)

/-- `store.rs`: `conversations.sort_by_key(|c| c.updated_at); conversations
.reverse();` — a stable ascending sort followed by a reversal. -/
def sort_by_updated_desc (conversations : List Conversation) : List Conversation :=
  (conversations.insertionSort (fun a b => a.updated_at ≤ b.updated_at)).reverse

/-- `store.rs`: `TranscriptStore::load_conversations`. -/
def load_conversations (dec : String → Except String ChatMessage)
    (metas : List (Uuid × String)) (files : List (Uuid × List String))
    (clock : Timestamp) : Except String (List Conversation) :=
  match load_loop dec metas files clock with
  | Except.error e => Except.error e
  | Except.ok conversations => Except.ok (sort_by_updated_desc conversations)

/-! ## Closed form of `snippet` -/

theorem snippetLoop_spec (n : Nat) (cs l : List Char) :
    snippetLoop n cs (String.mk l) =
      if n ≤ cs.length then some (String.mk (l ++ cs.take n ++ ['…'])) else none := by
  induction n generalizing cs l with
  | zero => simp [snippetLoop, String.push]
  | succ n ih =>
    cases cs with
    | nil => simp [snippetLoop]
    | cons c cs =>
      have hp : String.push (String.mk l) c = String.mk (l ++ [c]) := rfl
      simp [snippetLoop, hp, ih, List.take, Nat.succ_le_succ_iff, List.append_assoc]

theorem snippet_spec (content : String) :
    snippet content =
      if 42 ≤ (rust_trim content).toList.length then
        String.mk ((rust_trim content).toList.take 42 ++ ['…'])
      else rust_trim content := by
  have h : snippetLoop 42 (rust_trim content).toList "" =
      if 42 ≤ (rust_trim content).toList.length then
        some (String.mk ((rust_trim content).toList.take 42 ++ ['…']))
      else none := by
    simpa using snippetLoop_spec 42 (rust_trim content).toList []
  have hdef : snippet content =
      (match snippetLoop 42 (rust_trim content).toList "" with
        | some acc => acc
        | none => rust_trim content) := rfl
  rw [hdef, h]
  by_cases hc : 42 ≤ (rust_trim content).toList.length
  · rw [if_pos hc, if_pos hc]
  · rw [if_neg hc, if_neg hc]

/-- C4 (amended): the title set by the first user message of an empty
conversation is the trimmed content when it has fewer than 42 characters, and
the first 42 characters followed by the ellipsis marker when it has 42 or
more characters — so the marker also appears in the boundary case of exactly
42 characters, where nothing is dropped.  Appending a message to a non-empty
conversation never changes the title. -/
theorem first_message_title (c : Conversation) (now : Timestamp) (m : ChatMessage) :
    (c.messages = [] → m.role = MessageRole.user →
      (c.add_message now m).1.title =
        (if 42 ≤ (rust_trim m.content).toList.length then
          String.mk ((rust_trim m.content).toList.take 42 ++ ['…'])
        else rust_trim m.content)) ∧
    (c.messages ≠ [] → (c.add_message now m).1.title = c.title) := by
  constructor
  · intro hempty hrole
    simp [Conversation.add_message, hempty, hrole, snippet_spec]
  · intro hne
    simp [Conversation.add_message, hne]

/-- C4 witness: concrete instantiation of `first_message_title` — "hello
world" as first message of an empty conversation makes the title "hello
world"; a second message leaves the title unchanged. -/
theorem first_message_title_witness :
    (Conversation.new 7 0).messages = [] ∧
      ((Conversation.new 7 0).add_message 1
          { id := 2, role := MessageRole.user, content := "hello world",
            created_at := 0, tool_calls := [] }).1.title = "hello world" ∧
      (((Conversation.new 7 0).add_message 1
            { id := 2, role := MessageRole.user, content := "hello world",
              created_at := 0, tool_calls := [] }).1.add_message 2
          { id := 3, role := MessageRole.user, content := "second",
            created_at := 2, tool_calls := [] }).1.title = "hello world" := by
  refine ⟨rfl, ?_, ?_⟩
  · exact ((first_message_title (Conversation.new 7 0) 1
        { id := 2, role := MessageRole.user, content := "hello world",
          created_at := 0, tool_calls := [] }).1 rfl rfl).trans (by decide)
  · exact ((first_message_title _ 2
        { id := 3, role := MessageRole.user, content := "second",
          created_at := 2, tool_calls := [] }).2 (by decide)).trans (by decide)

/-- C4 counterexample: a user message whose trimmed content is exactly 42
characters long is not truncated (its first 42 characters are all of it), yet
the stored title carries the ellipsis marker — refuting "an ellipsis marker
appended exactly when s was truncated". -/
theorem snippet_boundary_counterexample :
    ((Conversation.new 1 0).add_message 1
        { id := 2, role := MessageRole.user,
          content := String.mk (List.replicate 42 'a'),
          created_at := 0, tool_calls := [] }).1.title
        = String.mk (List.replicate 42 'a' ++ ['…'])
      ∧ rust_trim (String.mk (List.replicate 42 'a')) = String.mk (List.replicate 42 'a')
      ∧ (String.mk (List.replicate 42 'a')).toList.length = 42 := by
  refine ⟨?_, by decide, by decide⟩
  decide

/-- C3: `send_user_message` on content that is blank after trimming is a
complete no-op: the state (conversations, titles, timestamps, selection) is
returned unchanged, no persistence call is recorded, and the result is
`Ok(())` — for every oracle and every interleaving. -/
theorem send_blank_noop (s : InnerState) (content : String)
    (msgId freshConvId : Uuid) (now1 now2 : Timestamp)
    (respond : List ChatMessage → Except String ChatResponse)
    (interfere : InnerState → InnerState)
    (h : rust_trim content = "") :
    send_user_message s content msgId freshConvId now1 respond interfere now2 =
      { state := s, effects := [], result := Except.ok () } := by
  simp [send_user_message, h]

/-- C3 witness: `send_user_message` on `"   "` (and on `""` via the same
theorem) leaves a concrete state untouched with no persistence writes. -/
theorem send_blank_noop_witness :
    rust_trim "   " = "" ∧
      send_user_message ⟨[Conversation.new 5 0], some 5⟩ "   " 1 2 3
          (fun _ => Except.error "unused") id 9 =
        { state := ⟨[Conversation.new 5 0], some 5⟩, effects := [],
          result := Except.ok () } :=
  ⟨by decide, send_blank_noop _ _ _ _ _ _ _ _ (by decide)⟩

/-- C7 (amended): `start_new_conversation` creates a conversation with zero
messages, inserts it at position 0, selects it, persists its metadata with
the placeholder title "New chat", and returns its id, which is exactly the
conversation the next `active_conversation()` call resolves to. -/
theorem start_new_conversation_spec (s : InnerState) (freshId : Uuid) (now : Timestamp) :
    start_new_conversation s freshId now =
        (freshId,
         { conversations := Conversation.new freshId now :: s.conversations,
           current_session := some freshId },
         [StoreEffect.persistMeta freshId "New chat"]) ∧
      (Conversation.new freshId now).messages = [] ∧
      active_conversation
          { conversations := Conversation.new freshId now :: s.conversations,
            current_session := some freshId } =
        some (Conversation.new freshId now) := by
  refine ⟨rfl, rfl, ?_⟩
  simp [active_conversation, Conversation.new, List.find?]

/-- C7 counterexample: the metadata persisted for a fresh conversation
carries the title "New chat", not an empty title. -/
theorem start_new_title_counterexample :
    (start_new_conversation ⟨[], none⟩ 0 0).2.2 =
        [StoreEffect.persistMeta 0 "New chat"] ∧
      "New chat" ≠ "" := by
  exact ⟨rfl, by decide⟩

/-! ## Selection invariant (C2) -/

/-- Executable form of the reachable-state invariant: a set selection pointer
always names an existing conversation (maintained by every mutation of
`AppState`). -/
def sel_valid (s : InnerState) : Bool :=
  match s.current_session with
  | none => true
  | some id => s.conversations.any (fun c => c.id == id)

theorem active_mem_of_valid (s : InnerState) (id : Uuid)
    (hactive : ∃ c, active_conversation s = some c ∧ c.id = id) :
    ∃ c ∈ s.conversations, c.id = id := by
  obtain ⟨c₀, hfind, hc₀⟩ := hactive
  cases hs : s.current_session with
  | none =>
    simp [active_conversation, hs] at hfind
    cases hl : s.conversations with
    | nil => rw [hl] at hfind; simp at hfind
    | cons a rest =>
      rw [hl] at hfind; simp at hfind
      subst hfind
      exact ⟨a, List.mem_cons_self a rest, hc₀⟩
  | some sid =>
    simp [active_conversation, hs] at hfind
    exact ⟨c₀, List.mem_of_find?_eq_some hfind, hc₀⟩

theorem exists_decomp_of_mem_id (l : List Conversation) (id : Uuid)
    (h : ∃ c ∈ l, c.id = id) :
    ∃ l₁ x l₂, l = l₁ ++ x :: l₂ ∧ (∀ c ∈ l₁, c.id ≠ id) ∧ x.id = id ∧
      l.findIdx? (fun c => c.id == id) = some l₁.length ∧
      l.eraseIdx l₁.length = l₁ ++ l₂ := by
  induction l with
  | nil => obtain ⟨c, hc, _⟩ := h; cases hc
  | cons a l ih =>
    by_cases ha : a.id = id
    · refine ⟨[], a, l, rfl, by simp, ha, ?_, rfl⟩
      simp [List.findIdx?_cons, ha]
    · have h' : ∃ c ∈ l, c.id = id := by
        obtain ⟨c, hc, hcid⟩ := h
        cases List.mem_cons.1 hc with
        | inl he => exact absurd (he ▸ hcid) ha
        | inr hm => exact ⟨c, hm, hcid⟩
      obtain ⟨l₁, x, l₂, h1, h2, h3, h4, h5⟩ := ih h'
      refine ⟨a :: l₁, x, l₂, by simp [h1], ?_, h3, ?_, ?_⟩
      · intro c hc
        cases List.mem_cons.1 hc with
        | inl he => exact he ▸ ha
        | inr hm => exact h2 c hm
      · simp [List.findIdx?_cons, ha, h4]
      · simp [h5]

/-- C2: deleting the active conversation from a store (with distinct ids)
holding at least two conversations leaves `active_conversation` at some
remaining conversation — the new first element, never the deleted id, never
none; deleting the only conversation makes `active_conversation` return
none.  And in general, on every state satisfying the selection invariant
with a non-empty list, `active_conversation` returns the selected
conversation when a selection is set (its id always still exists there),
otherwise the first element. -/
theorem delete_selection_invariant (s : InnerState) (id : Uuid)
    (hnodup : (s.conversations.map (fun c => c.id)).Nodup)
    (hactive : ∃ c, active_conversation s = some c ∧ c.id = id) :
    (2 ≤ s.conversations.length →
        ∃ c, active_conversation (delete_conversation s id).2.1 = some c ∧
          c.id ≠ id ∧ (delete_conversation s id).2.1.conversations.head? = some c) ∧
      (s.conversations.length = 1 →
        active_conversation (delete_conversation s id).2.1 = none) ∧
      (∀ t : InnerState, sel_valid t = true → t.conversations ≠ [] →
        ∃ c, active_conversation t = some c ∧
          (t.current_session = some c.id ∨
            (t.current_session = none ∧ t.conversations.head? = some c))) := by
  obtain ⟨l₁, x, l₂, hL, hl₁, hx, hidx, herase⟩ :=
    exists_decomp_of_mem_id s.conversations id (active_mem_of_valid s id hactive)
  have hdel : (delete_conversation s id).2.1 =
      { conversations := l₁ ++ l₂,
        current_session :=
          if s.current_session == some id then (l₁ ++ l₂).head?.map (fun c => c.id)
          else s.current_session } := by
    simp [delete_conversation, hidx, herase]
  have hsid : ∀ sid, s.current_session = some sid → sid = id := by
    intro sid hs
    obtain ⟨c₀, hfind, hc₀⟩ := hactive
    simp [active_conversation, hs] at hfind
    have hp := List.find?_some hfind
    have hcs : c₀.id = sid := by simpa using hp
    rw [← hcs, hc₀]
  have hxnotin : ¬ id ∈ l₂.map (fun c => c.id) := by
    rw [hL] at hnodup
    rw [List.map_append, List.map_cons] at hnodup
    have h2 := hnodup.of_append_right
    have h3 := (List.nodup_cons.1 h2).1
    rw [hx] at h3
    exact h3
  refine ⟨?_, ?_, ?_⟩
  · intro hlen
    have hlen' : 1 ≤ (l₁ ++ l₂).length := by
      rw [hL] at hlen; simp at hlen ⊢; omega
    cases hc : l₁ ++ l₂ with
    | nil => rw [hc] at hlen'; simp at hlen'
    | cons d rest =>
      have hdmem : d ∈ l₁ ++ l₂ := by rw [hc]; exact List.mem_cons_self d rest
      have hdid : d.id ≠ id := by
        rcases List.mem_append.1 hdmem with hm | hm
        · exact hl₁ d hm
        · intro he
          exact hxnotin (by rw [← he]; exact List.mem_map_of_mem _ hm)
      cases hs : s.current_session with
      | none =>
        refine ⟨d, ?_, hdid, ?_⟩
        · rw [hdel]; simp [active_conversation, hs, hc]
        · rw [hdel]; simp [hc]
      | some sid =>
        have hsid' := hsid sid hs
        subst hsid'
        refine ⟨d, ?_, hdid, ?_⟩
        · rw [hdel]; simp [active_conversation, hs, hc, List.find?]
        · rw [hdel]; simp [hc]
  · intro hlen1
    have hnil : l₁ = [] ∧ l₂ = [] := by
      rw [hL] at hlen1; simp at hlen1
      constructor
      · exact List.length_eq_zero.1 (by omega)
      · exact List.length_eq_zero.1 (by omega)
    obtain ⟨h1, h2⟩ := hnil
    subst h1; subst h2
    cases hs : s.current_session with
    | none => rw [hdel]; simp [active_conversation, hs]
    | some sid =>
      have hsid' := hsid sid hs
      subst hsid'
      rw [hdel]; simp [active_conversation, hs]
  · intro t hv hne
    cases ht : t.current_session with
    | none =>
      cases hl : t.conversations with
      | nil => exact absurd hl hne
      | cons a rest =>
        exact ⟨a, by simp [active_conversation, ht, hl], Or.inr ⟨rfl, by simp [hl]⟩⟩
    | some sid =>
      have hany : t.conversations.any (fun c => c.id == sid) = true := by
        have hv' := hv
        rw [sel_valid, ht] at hv'
        exact hv'
      obtain ⟨c, hcmem, hcp⟩ := List.any_eq_true.1 hany
      have hsome : (t.conversations.find? (fun c => c.id == sid)).isSome :=
        List.find?_isSome.2 ⟨c, hcmem, hcp⟩
      obtain ⟨d, hd⟩ := Option.isSome_iff_exists.1 hsome
      have hdp : d.id = sid := by simpa using List.find?_some hd
      refine ⟨d, by simp [active_conversation, ht, hd], Or.inl ?_⟩
      rw [hdp]

/-- C2 witness: concrete instantiations of `delete_selection_invariant` on a
two-conversation store (deleting the active one) and on a one-conversation
store. -/
theorem delete_selection_invariant_witness :
    (∃ c, active_conversation
          (delete_conversation
            ⟨[Conversation.new 1 0, Conversation.new 2 0], some 1⟩ 1).2.1 = some c ∧
        c.id ≠ 1 ∧
        (delete_conversation
            ⟨[Conversation.new 1 0, Conversation.new 2 0], some 1⟩ 1).2.1.conversations.head? =
          some c) ∧
      active_conversation (delete_conversation ⟨[Conversation.new 3 0], some 3⟩ 3).2.1 =
        none :=
  ⟨(delete_selection_invariant ⟨[Conversation.new 1 0, Conversation.new 2 0], some 1⟩ 1
      (by decide) ⟨Conversation.new 1 0, by decide, by decide⟩).1 (by decide),
   (delete_selection_invariant ⟨[Conversation.new 3 0], some 3⟩ 3
      (by decide) ⟨Conversation.new 3 0, by decide, by decide⟩).2.1 (by decide)⟩

/-! ## Mock-provider streaming (C8, C9) -/

theorem chunks5_flatten (l : List Char) :
    (chunks5 l).foldr (fun a b => a ++ b) [] = l := by
  match l with
  | [] => rfl
  | [a] => rfl
  | [a, b] => rfl
  | [a, b, c] => rfl
  | [a, b, c, d] => rfl
  | a :: b :: c :: d :: e :: rest => simp [chunks5, chunks5_flatten rest]

theorem stream_text_append (xs ys : List (Except String StreamChunk)) :
    stream_text (xs ++ ys) = stream_text xs ++ stream_text ys := by
  induction xs with
  | nil => simp [stream_text]
  | cons x xs ih =>
    cases x with
    | ok c => cases hc : c.done <;> simp [stream_text, hc, ih, String.append_assoc]
    | error e => simp [stream_text, ih]

theorem stream_text_chunks (cs : List (List Char)) :
    stream_text (cs.map (fun chunk => Except.ok { delta := String.mk chunk, done := false })) =
      String.mk (cs.foldr (fun a b => a ++ b) []) := by
  induction cs with
  | nil => rfl
  | cons c cs ih =>
    have happ : String.mk c ++ String.mk (cs.foldr (fun a b => a ++ b) []) =
        String.mk (c ++ cs.foldr (fun a b => a ++ b) []) := rfl
    simp [stream_text, ih, happ]

theorem stream_text_mock (reply : String) :
    stream_text
        ((chunks5 reply.toList).map
            (fun chunk => Except.ok { delta := String.mk chunk, done := false })
          ++ [Except.ok { delta := "", done := true }]) = reply := by
  rw [stream_text_append, stream_text_chunks, chunks5_flatten]
  show String.mk reply.toList ++ ("" ++ "") = reply
  have h1 : String.mk reply.toList = reply := rfl
  have h2 : ("" : String) ++ "" = "" := rfl
  rw [h1, h2, String.append_empty]

/-- C8: the mock provider's one-shot `respond` and its `respond_streaming`
are equivalent: for every history, model override and temperature,
concatenating the deltas of all non-done chunks the stream emits yields
exactly the content of the message `respond` returns. -/
theorem mock_streaming_equivalence (model : Option String)
    (history : List ChatMessage) (model_override : Option String)
    (temperature : Option F32) (id : Uuid) (now : Timestamp) :
    ∃ items response,
      (LlmDriver.configured_mock model).respond_streaming history model_override temperature =
          Except.ok items ∧
        (LlmDriver.configured_mock model).respond history model_override temperature id now =
          Except.ok response ∧
        stream_text items = response.message.content := by
  refine ⟨_, _, rfl, rfl, ?_⟩
  exact stream_text_mock _

/-- A well-formed stream: zero or more `done = false` chunks followed by
exactly one terminal item — an `Ok` chunk with `done = true` or one `Err` —
and nothing after it. -/
def IsTerminalItem : Except String StreamChunk → Prop
  | Except.ok c => c.done = true
  | Except.error _ => True

def WfStream (items : List (Except String StreamChunk)) : Prop :=
  ∃ front last, items = front ++ [last] ∧
    (∀ x ∈ front, ∃ c, x = Except.ok c ∧ c.done = false) ∧
    IsTerminalItem last

theorem streaming_task_wf (s : InnerState) (cid aid : Uuid) (now : Timestamp) :
    ∀ (front : List (Except String StreamChunk)) (last : Except String StreamChunk)
      (acc : String),
      (∀ x ∈ front, ∃ c, x = Except.ok c ∧ c.done = false) → IsTerminalItem last →
      WfStream (streaming_task s cid aid now (front ++ [last]) acc).1 := by
  intro front
  induction front with
  | nil =>
    intro last acc hpre hlast
    cases last with
    | ok c =>
      have hc : c.done = true := hlast
      simp only [List.nil_append]
      refine ⟨[], Except.ok { delta := "", done := true }, ?_, by simp, rfl⟩
      simp [streaming_task, hc]
    | error e =>
      simp only [List.nil_append]
      refine ⟨[], Except.error e, ?_, by simp, trivial⟩
      simp [streaming_task]
  | cons x front ih =>
    intro last acc hpre hlast
    obtain ⟨c, hx, hdone⟩ := hpre x (List.mem_cons_self _ _)
    subst hx
    obtain ⟨front₀, last₀, heq, hp₀, hl₀⟩ :=
      ih last (acc ++ c.delta) (fun y hy => hpre y (List.mem_cons_of_mem _ hy)) hlast
    refine ⟨Except.ok c :: front₀, last₀, ?_, ?_, hl₀⟩
    · simp [streaming_task, hdone, heq]
    · intro y hy
      cases List.mem_cons.1 hy with
      | inl he => exact ⟨c, he, hdone⟩
      | inr hm => exact hp₀ y hm

/-- C9: every chunk stream of the model — the mock provider stream, the
outbound channel of the blank-content path, and the outbound channel the
streaming task produces from any well-formed provider stream — emits zero or
more `done = false` chunks followed by exactly one terminal item (one
`done = true` chunk or one `Err`) and nothing after it. -/
theorem stream_terminal_shape :
    (∀ (messages : List ChatMessage) (config : LlmConfig),
        ∃ items, MockProvider.send_chat_stream messages config = Except.ok items ∧
          WfStream items) ∧
      WfStream [Except.ok { delta := "", done := true }] ∧
      (∀ (s : InnerState) (cid aid : Uuid) (now : Timestamp)
          (input : List (Except String StreamChunk)) (acc : String),
          WfStream input → WfStream (streaming_task s cid aid now input acc).1) := by
  refine ⟨?_, ?_, ?_⟩
  · intro messages config
    refine ⟨_, rfl, _, Except.ok { delta := "", done := true }, rfl, ?_, rfl⟩
    intro x hx
    obtain ⟨ch, _, rfl⟩ := List.mem_map.1 hx
    exact ⟨{ delta := String.mk ch, done := false }, rfl, rfl⟩
  · exact ⟨[], Except.ok { delta := "", done := true }, rfl, by simp, rfl⟩
  · intro s cid aid now input acc hwf
    obtain ⟨front, last, rfl, hp, hl⟩ := hwf
    exact streaming_task_wf s cid aid now front last acc hp hl

/-- C9 witness: the streaming task applied to a concrete well-formed
provider stream produces a well-formed outbound stream. -/
theorem stream_terminal_shape_witness :
    WfStream (streaming_task ⟨[], none⟩ 1 2 3
        [Except.ok { delta := "a", done := false },
          Except.ok { delta := "", done := true }] "").1 :=
  stream_terminal_shape.2.2 ⟨[], none⟩ 1 2 3 _ ""
    ⟨[Except.ok { delta := "a", done := false }],
      Except.ok { delta := "", done := true }, rfl,
      by intro x hx; simp at hx; subst hx; exact ⟨⟨"a", false⟩, rfl, rfl⟩, rfl⟩

/-! ## Streaming finalisation (C1) and the non-streaming race (C10) -/

theorem add_and_persist_list_absent (l : List Conversation) (cid : Uuid)
    (m : ChatMessage) (now : Timestamp) (h : ∀ c ∈ l, c.id ≠ cid) :
    add_and_persist_list l cid m now = (l, []) := by
  induction l with
  | nil => rfl
  | cons c rest ih =>
    have hc : (c.id == cid) = false := by
      simp [h c (List.mem_cons_self _ _)]
    simp [add_and_persist_list, hc, ih (fun d hd => h d (List.mem_cons_of_mem _ hd))]

theorem add_and_persist_list_present (l₁ : List Conversation) (x : Conversation)
    (l₂ : List Conversation) (cid : Uuid) (m : ChatMessage) (now : Timestamp)
    (h₁ : ∀ c ∈ l₁, c.id ≠ cid) (hx : x.id = cid) :
    add_and_persist_list (l₁ ++ x :: l₂) cid m now =
      (l₁ ++ (x.add_message now m).1 :: l₂,
       StoreEffect.append (x.add_message now m).1.id m ::
         (if (x.add_message now m).2 then
            [StoreEffect.persistMeta (x.add_message now m).1.id
              (x.add_message now m).1.title]
          else [])) := by
  induction l₁ with
  | nil =>
    have hxx : (x.id == cid) = true := by simp [hx]
    simp [add_and_persist_list, hxx]
  | cons c rest ih =>
    have hc : (c.id == cid) = false := by
      simp [h₁ c (List.mem_cons_self _ _)]
    simp [add_and_persist_list, hc, ih (fun d hd => h₁ d (List.mem_cons_of_mem _ hd))]

theorem add_message_id (c : Conversation) (now : Timestamp) (m : ChatMessage) :
    (c.add_message now m).1.id = c.id := rfl

theorem add_message_messages (c : Conversation) (now : Timestamp) (m : ChatMessage) :
    (c.add_message now m).1.messages = c.messages ++ [m] := rfl

theorem streaming_task_ok (s : InnerState) (cid aid : Uuid) (now : Timestamp)
    (deltas : List String) :
    ∀ acc, streaming_task s cid aid now
        (deltas.map (fun d => Except.ok { delta := d, done := false })
          ++ [Except.ok { delta := "", done := true }]) acc =
      (deltas.map (fun d => Except.ok { delta := d, done := false })
          ++ [Except.ok { delta := "", done := true }],
       add_and_persist s cid
         { id := aid, role := MessageRole.assistant,
           content := deltas.foldl (fun a b => a ++ b) acc,
           created_at := now, tool_calls := [] } now) := by
  induction deltas with
  | nil => intro acc; simp [streaming_task]
  | cons d rest ih =>
    intro acc
    simp [streaming_task, ih (acc ++ d), List.foldl_cons]

theorem streaming_task_err (s : InnerState) (cid aid : Uuid) (now : Timestamp)
    (deltas : List String) (e : String) :
    ∀ acc, streaming_task s cid aid now
        (deltas.map (fun d => Except.ok { delta := d, done := false })
          ++ [Except.error e]) acc =
      (deltas.map (fun d => Except.ok { delta := d, done := false })
          ++ [Except.error e], s, []) := by
  induction deltas with
  | nil => intro acc; simp [streaming_task]
  | cons d rest ih =>
    intro acc
    simp [streaming_task, ih (acc ++ d)]

/-- Abbreviation: provider stream delivering `deltas` then a `done` marker. -/
def ok_stream (deltas : List String) : List (Except String StreamChunk) :=
  deltas.map (fun d => Except.ok { delta := d, done := false })
    ++ [Except.ok { delta := "", done := true }]

/-- Abbreviation: provider stream delivering `deltas` then an error. -/
def err_stream (deltas : List String) (e : String) : List (Except String StreamChunk) :=
  deltas.map (fun d => Except.ok { delta := d, done := false }) ++ [Except.error e]

/-- Abbreviation: the assistant message the streaming finalisation builds from
the accumulated deltas. -/
def assistant_of (aid : Uuid) (deltas : List String) (now : Timestamp) : ChatMessage :=
  { id := aid, role := MessageRole.assistant,
    content := deltas.foldl (fun a b => a ++ b) "",
    created_at := now, tool_calls := [] }

/-- C1 (amended): when the provider stream ends in `done = true` and the
conversation captured at stream start still exists at finalisation time,
exactly one assistant message — carrying the pre-allocated assistant id and
the concatenation of all prior deltas — is appended to that conversation and
persisted against it, regardless of the current selection (the selection
pointer is untouched and the id targeted is the captured one); if the
captured conversation has been deleted mid-stream, nothing is appended or
persisted and the done marker is still forwarded.  When the stream ends in an
error, no assistant message is appended or persisted, the accumulated buffer
is discarded, and the error is the terminal outbound item with no done
marker.  The id the caller receives from `send_user_message_streaming` is
exactly the pre-allocated assistant id used by the finalisation. -/
theorem streaming_finalization :
    (∀ (sDone : InnerState) (cid aid : Uuid) (nowDone : Timestamp)
        (deltas : List String) (l₁ l₂ : List Conversation) (x : Conversation),
        sDone.conversations = l₁ ++ x :: l₂ → (∀ c ∈ l₁, c.id ≠ cid) → x.id = cid →
        streaming_task sDone cid aid nowDone (ok_stream deltas) "" =
            (ok_stream deltas,
             { sDone with conversations :=
                l₁ ++ (x.add_message nowDone (assistant_of aid deltas nowDone)).1 :: l₂ },
             [StoreEffect.append cid (assistant_of aid deltas nowDone)]) ∧
          (x.add_message nowDone (assistant_of aid deltas nowDone)).1.messages =
            x.messages ++ [assistant_of aid deltas nowDone]) ∧
      (∀ (sDone : InnerState) (cid aid : Uuid) (nowDone : Timestamp)
          (deltas : List String),
          (∀ c ∈ sDone.conversations, c.id ≠ cid) →
          streaming_task sDone cid aid nowDone (ok_stream deltas) "" =
            (ok_stream deltas, sDone, [])) ∧
      (∀ (sDone : InnerState) (cid aid : Uuid) (nowDone : Timestamp)
          (deltas : List String) (e : String),
          streaming_task sDone cid aid nowDone (err_stream deltas e) "" =
              (err_stream deltas e, sDone, []) ∧
            (∀ item ∈ err_stream deltas e, ∀ c, item = Except.ok c → c.done = false)) ∧
      (∀ (s : InnerState) (content : String) (msgId freshConvId aid blankId : Uuid)
          (now : Timestamp)
          (oracle : List ChatMessage → Except String (List (Except String StreamChunk)))
          (interfere : InnerState → InnerState) (nowDone : Timestamp),
          rust_trim content ≠ "" →
          ∀ p, (run_streaming_send s content msgId freshConvId aid blankId now oracle
              interfere nowDone).2.2 = Except.ok p → p.1 = aid) := by
  refine ⟨?_, ?_, ?_, ?_⟩
  · intro sDone cid aid nowDone deltas l₁ l₂ x hL h₁ hx
    have htask := streaming_task_ok sDone cid aid nowDone deltas ""
    refine ⟨?_, add_message_messages x nowDone _⟩
    simp only [ok_stream, assistant_of]
    rw [htask, add_and_persist, hL,
      add_and_persist_list_present l₁ x l₂ cid _ nowDone h₁ hx]
    have ht : (x.add_message nowDone
        { id := aid, role := MessageRole.assistant,
          content := List.foldl (fun a b => a ++ b) "" deltas,
          created_at := nowDone, tool_calls := [] }).2 = false := by
      simp [Conversation.add_message]
    have hid : (x.add_message nowDone
        { id := aid, role := MessageRole.assistant,
          content := List.foldl (fun a b => a ++ b) "" deltas,
          created_at := nowDone, tool_calls := [] }).1.id = cid := by
      rw [add_message_id, hx]
    rw [ht, hid]
    simp
  · intro sDone cid aid nowDone deltas hnone
    have htask := streaming_task_ok sDone cid aid nowDone deltas ""
    rw [ok_stream, htask, add_and_persist,
      add_and_persist_list_absent sDone.conversations cid _ nowDone hnone]
  · intro sDone cid aid nowDone deltas e
    refine ⟨by rw [err_stream, streaming_task_err], ?_⟩
    intro item hmem c heq
    rw [err_stream] at hmem
    rcases List.mem_append.1 hmem with hmm | hmm
    · obtain ⟨d, _, rfl⟩ := List.mem_map.1 hmm
      cases heq
      rfl
    · simp at hmm
      subst hmm
      cases heq
  · intro s content msgId freshConvId aid blankId now oracle interfere nowDone hcontent p hp
    unfold run_streaming_send at hp
    rw [if_neg hcontent] at hp
    dsimp only at hp
    split at hp
    · cases hp
    · simp at hp
      rw [← hp]

/-- C1 witness: concrete instantiations of `streaming_finalization` — a
successful finalisation against an existing conversation, and an error
finalisation that persists nothing. -/
theorem streaming_finalization_witness :
    streaming_task ⟨[Conversation.new 5 0], some 5⟩ 5 77 9 (ok_stream ["Hel", "lo"]) "" =
        (ok_stream ["Hel", "lo"],
         { conversations :=
            [((Conversation.new 5 0).add_message 9 (assistant_of 77 ["Hel", "lo"] 9)).1],
           current_session := some 5 },
         [StoreEffect.append 5 (assistant_of 77 ["Hel", "lo"] 9)]) ∧
      streaming_task ⟨[], none⟩ 5 77 9 (err_stream ["x"] "boom") "" =
        (err_stream ["x"] "boom", ⟨[], none⟩, []) :=
  ⟨(streaming_finalization.1 ⟨[Conversation.new 5 0], some 5⟩ 5 77 9 ["Hel", "lo"]
      [] [] (Conversation.new 5 0) rfl (by simp) rfl).1,
   (streaming_finalization.2.2.1 ⟨[], none⟩ 5 77 9 ["x"] "boom").1⟩

/-- C1 counterexample: a streaming send on non-blank content whose
conversation is deleted between stream start and the `done` chunk.  The done
marker is delivered, yet no assistant message is appended anywhere (the final
state holds no conversations) and the only persistence calls are the user
append and title write from stream start — refuting the unconditional
"exactly one assistant ChatMessage … is appended and persisted". -/
theorem streaming_finalization_deleted_counterexample :
    run_streaming_send ⟨[Conversation.new 5 0], some 5⟩ "hi" 1 2 77 88 3
        (fun _ => Except.ok [Except.ok { delta := "Hello", done := false },
          Except.ok { delta := "", done := true }])
        (fun t => (delete_conversation t 5).2.1) 9 =
      (⟨[], none⟩,
       [StoreEffect.append 5
          { id := 1, role := MessageRole.user, content := "hi",
            created_at := 3, tool_calls := [] },
        StoreEffect.persistMeta 5 "hi"],
       Except.ok (77, [Except.ok { delta := "Hello", done := false },
         Except.ok { delta := "", done := true }])) ∧
      ((run_streaming_send ⟨[Conversation.new 5 0], some 5⟩ "hi" 1 2 77 88 3
          (fun _ => Except.ok [Except.ok { delta := "Hello", done := false },
            Except.ok { delta := "", done := true }])
          (fun t => (delete_conversation t 5).2.1) 9).2.1.all
        (fun eff =>
          match eff with
          | StoreEffect.append _ m => m.role == MessageRole.user
          | _ => true)) = true := by
  constructor
  · decide
  · decide

/-- C10: if the target conversation is deleted while the model call of the
non-streaming `send_user_message` is in flight, the operation still returns
`Ok`; the assistant reply is silently discarded — the final state is exactly
the interfered state (no conversation gains a message) and no persistence
call beyond those of the user-message phase is made. -/
theorem deleted_conversation_send_ok (s : InnerState) (content : String)
    (msgId freshConvId : Uuid) (now1 now2 : Timestamp) (response : ChatResponse)
    (interfere : InnerState → InnerState) (s0 : InnerState) (conversation_id : Uuid)
    (s1 : InnerState) (effects1 : List StoreEffect)
    (hcontent : rust_trim content ≠ "")
    (hens : ensure_conversation s freshConvId now1 = (s0, conversation_id))
    (hadd : add_and_persist s0 conversation_id
        { id := msgId, role := MessageRole.user, content := content,
          created_at := now1, tool_calls := [] } now1 = (s1, effects1))
    (hgone : ∀ c ∈ (interfere s1).conversations, c.id ≠ conversation_id) :
    send_user_message s content msgId freshConvId now1 (fun _ => Except.ok response)
        interfere now2 =
      { state := interfere s1, effects := effects1, result := Except.ok () } := by
  unfold send_user_message
  rw [if_neg hcontent]
  dsimp only
  rw [hens]
  dsimp only
  rw [hadd]
  dsimp only
  rw [add_and_persist, add_and_persist_list_absent _ _ _ _ hgone]
  simp

/-- C10 witness: a concrete send whose conversation is deleted during the
model call returns `Ok` with the reply discarded. -/
theorem deleted_conversation_send_ok_witness :
    send_user_message ⟨[Conversation.new 5 0], some 5⟩ "hi" 1 2 3
        (fun _ => Except.ok
          { message :=
              { id := 9, role := MessageRole.assistant, content := "reply",
                created_at := 7, tool_calls := [] },
            usage := none })
        (fun t => (delete_conversation t 5).2.1) 9 =
      { state := ⟨[], none⟩,
        effects := [StoreEffect.append 5
            { id := 1, role := MessageRole.user, content := "hi",
              created_at := 3, tool_calls := [] },
          StoreEffect.persistMeta 5 "hi"],
        result := Except.ok () } := by
  have h := deleted_conversation_send_ok ⟨[Conversation.new 5 0], some 5⟩ "hi" 1 2 3 9
      { message :=
          { id := 9, role := MessageRole.assistant, content := "reply",
            created_at := 7, tool_calls := [] },
        usage := none }
      (fun t => (delete_conversation t 5).2.1)
      ⟨[Conversation.new 5 0], some 5⟩ 5
      ⟨[{ id := 5, title := "hi", created_at := 0, updated_at := 3,
            messages := [{ id := 1, role := MessageRole.user, content := "hi",
                           created_at := 3, tool_calls := [] }] }],
        some 5⟩
      [StoreEffect.append 5
          { id := 1, role := MessageRole.user, content := "hi",
            created_at := 3, tool_calls := [] },
        StoreEffect.persistMeta 5 "hi"]
      (by decide) (by decide) (by decide) (by decide)
  exact h.trans (by decide)

/-! ## Transcript-store persistence (C5, C6) -/

/-- One conversation as the test bench writes it: an id, a title persisted via
`persist_metadata`, and the messages appended in order via `append_message`. -/
structure WrittenConversation where
  id : Uuid
  title : String
  messages : List ChatMessage
deriving DecidableEq, Repr

def write_step (enc : ChatMessage → String)
    (st : List (Uuid × List String) × List (Uuid × String))
    (w : WrittenConversation) :
    List (Uuid × List String) × List (Uuid × String) :=
  (w.messages.foldl (fun fs m => append_message enc fs w.id m) st.1,
   persist_metadata st.2 w.id w.title)

/-- Perform, against an empty storage root, all `append_message` and
`persist_metadata` calls of a list of written conversations. -/
def write_all (enc : ChatMessage → String) (ws : List WrittenConversation) :
    List (Uuid × List String) × List (Uuid × String) :=
  ws.foldl (write_step enc) ([], [])

theorem append_line_fresh (files : List (Uuid × List String)) (cid : Uuid) (line : String)
    (h : ∀ f ∈ files, f.1 ≠ cid) :
    append_line files cid line = files ++ [(cid, [line])] := by
  induction files with
  | nil => rfl
  | cons f rest ih =>
    have hf : (f.1 == cid) = false := by simp [h f (List.mem_cons_self _ _)]
    cases f with
    | mk fid lines =>
      simp only [append_line]
      rw [show (fid == cid) = false from hf]
      simp [ih (fun g hg => h g (List.mem_cons_of_mem _ hg))]

theorem append_line_found (fs₁ : List (Uuid × List String)) (cid : Uuid)
    (lines : List String) (fs₂ : List (Uuid × List String)) (line : String)
    (h₁ : ∀ f ∈ fs₁, f.1 ≠ cid) :
    append_line (fs₁ ++ (cid, lines) :: fs₂) cid line =
      fs₁ ++ (cid, lines ++ [line]) :: fs₂ := by
  induction fs₁ with
  | nil => simp [append_line]
  | cons f rest ih =>
    have hf : (f.1 == cid) = false := by simp [h₁ f (List.mem_cons_self _ _)]
    cases f with
    | mk fid ls =>
      simp only [List.cons_append, append_line]
      rw [show (fid == cid) = false from hf]
      simp [ih (fun g hg => h₁ g (List.mem_cons_of_mem _ hg))]

theorem append_messages_found (enc : ChatMessage → String) (msgs : List ChatMessage) :
    ∀ (fs₁ : List (Uuid × List String)) (cid : Uuid) (lines : List String)
      (fs₂ : List (Uuid × List String)), (∀ f ∈ fs₁, f.1 ≠ cid) →
      msgs.foldl (fun fs m => append_message enc fs cid m) (fs₁ ++ (cid, lines) :: fs₂) =
        fs₁ ++ (cid, lines ++ msgs.map enc) :: fs₂ := by
  induction msgs with
  | nil => intro fs₁ cid lines fs₂ h₁; simp
  | cons m rest ih =>
    intro fs₁ cid lines fs₂ h₁
    simp only [List.foldl_cons]
    rw [show append_message enc (fs₁ ++ (cid, lines) :: fs₂) cid m =
        fs₁ ++ (cid, lines ++ [enc m]) :: fs₂ from
      append_line_found fs₁ cid lines fs₂ (enc m) h₁]
    rw [ih fs₁ cid (lines ++ [enc m]) fs₂ h₁]
    simp

theorem append_messages_fresh (enc : ChatMessage → String) (msgs : List ChatMessage)
    (files : List (Uuid × List String)) (cid : Uuid)
    (hne : msgs ≠ []) (h : ∀ f ∈ files, f.1 ≠ cid) :
    msgs.foldl (fun fs m => append_message enc fs cid m) files =
      files ++ [(cid, msgs.map enc)] := by
  cases msgs with
  | nil => exact absurd rfl hne
  | cons m rest =>
    simp only [List.foldl_cons]
    rw [show append_message enc files cid m = files ++ [(cid, [enc m])] from
      append_line_fresh files cid (enc m) h]
    have := append_messages_found enc rest files cid [enc m] [] h
    simpa using this

theorem persist_metadata_fresh (metas : List (Uuid × String)) (cid : Uuid) (t : String)
    (h : ∀ p ∈ metas, p.1 ≠ cid) :
    persist_metadata metas cid t = metas ++ [(cid, t)] := by
  induction metas with
  | nil => rfl
  | cons p rest ih =>
    have hp : (p.1 == cid) = false := by simp [h p (List.mem_cons_self _ _)]
    cases p with
    | mk pid old =>
      simp only [persist_metadata]
      rw [show (pid == cid) = false from hp]
      simp [ih (fun q hq => h q (List.mem_cons_of_mem _ hq))]

theorem write_all_go (enc : ChatMessage → String) :
    ∀ (ws : List WrittenConversation) (files₀ : List (Uuid × List String))
      (metas₀ : List (Uuid × String)),
      (ws.map (fun w => w.id)).Nodup →
      (∀ w ∈ ws, w.messages ≠ []) →
      (∀ w ∈ ws, ∀ f ∈ files₀, f.1 ≠ w.id) →
      (∀ w ∈ ws, ∀ p ∈ metas₀, p.1 ≠ w.id) →
      ws.foldl (write_step enc) (files₀, metas₀) =
        (files₀ ++ ws.map (fun w => (w.id, w.messages.map enc)),
         metas₀ ++ ws.map (fun w => (w.id, w.title))) := by
  intro ws
  induction ws with
  | nil => intro files₀ metas₀ _ _ _ _; simp
  | cons w ws ih =>
    intro files₀ metas₀ hnodup hne hfiles hmetas
    have hw : w.messages ≠ [] := hne w (List.mem_cons_self _ _)
    have hwfresh : ∀ f ∈ files₀, f.1 ≠ w.id := by
      intro f hf
      exact hfiles w (List.mem_cons_self _ _) f hf
    have hwmeta : ∀ p ∈ metas₀, p.1 ≠ w.id := by
      intro p hp
      exact hmetas w (List.mem_cons_self _ _) p hp
    have hstep : write_step enc (files₀, metas₀) w =
        (files₀ ++ [(w.id, w.messages.map enc)], metas₀ ++ [(w.id, w.title)]) := by
      simp only [write_step]
      rw [append_messages_fresh enc w.messages files₀ w.id hw hwfresh,
        persist_metadata_fresh metas₀ w.id w.title hwmeta]
    have hwid : ¬ w.id ∈ ws.map (fun w => w.id) := (List.nodup_cons.1 hnodup).1
    have hfiles' : ∀ v ∈ ws, ∀ f ∈ files₀ ++ [(w.id, w.messages.map enc)], f.1 ≠ v.id := by
      intro v hv f hf
      rcases List.mem_append.1 hf with hm | hm
      · exact hfiles v (List.mem_cons_of_mem _ hv) f hm
      · simp at hm
        subst hm
        simp only [ne_eq]
        intro he
        exact hwid (by rw [he]; exact List.mem_map_of_mem _ hv)
    have hmetas' : ∀ v ∈ ws, ∀ p ∈ metas₀ ++ [(w.id, w.title)], p.1 ≠ v.id := by
      intro v hv p hp
      rcases List.mem_append.1 hp with hm | hm
      · exact hmetas v (List.mem_cons_of_mem _ hv) p hm
      · simp at hm
        subst hm
        simp only [ne_eq]
        intro he
        exact hwid (by rw [he]; exact List.mem_map_of_mem _ hv)
    simp only [List.foldl_cons]
    rw [hstep, ih (files₀ ++ [(w.id, w.messages.map enc)]) (metas₀ ++ [(w.id, w.title)])
      (List.nodup_cons.1 hnodup).2 (fun v hv => hne v (List.mem_cons_of_mem _ hv))
      hfiles' hmetas']
    simp

theorem read_metadata_written (ws : List WrittenConversation)
    (hnodup : (ws.map (fun w => w.id)).Nodup) :
    ∀ w ∈ ws, read_metadata (ws.map (fun w => (w.id, w.title))) w.id = some w.title := by
  induction ws with
  | nil => intro w hw; cases hw
  | cons v ws ih =>
    intro w hw
    rcases List.mem_cons.1 hw with he | hm
    · subst he
      simp [read_metadata]
    · have hvw : (v.id == w.id) = false := by
        have hvid : ¬ v.id ∈ ws.map (fun w => w.id) := (List.nodup_cons.1 hnodup).1
        simp only [beq_eq_false_iff_ne, ne_eq]
        intro he
        exact hvid (by rw [he]; exact List.mem_map_of_mem _ hm)
      have := ih (List.nodup_cons.1 hnodup).2 w hm
      simp only [read_metadata, List.map_cons, List.find?] at this ⊢
      rw [hvw]
      exact this

theorem replay_lines_encoded (dec : String → Except String ChatMessage)
    (enc : ChatMessage → String) (msgs : List ChatMessage)
    (hcodec : ∀ m ∈ msgs, dec (enc m) = Except.ok m ∧ rust_trim (enc m) ≠ "") :
    ∀ (c : Conversation) (clock : Timestamp),
      ∃ c' clock', replay_lines dec (msgs.map enc) c clock = Except.ok (c', clock') ∧
        c'.messages = c.messages ++ msgs ∧ c'.id = c.id := by
  induction msgs with
  | nil => intro c clock; exact ⟨c, clock, rfl, by simp, rfl⟩
  | cons m rest ih =>
    intro c clock
    obtain ⟨hdec, hblank⟩ := hcodec m (List.mem_cons_self _ _)
    obtain ⟨c', clock', hrec, hmsgs, hid⟩ :=
      ih (fun m' hm' => hcodec m' (List.mem_cons_of_mem _ hm'))
        (c.add_message clock m).1 (clock + 1)
    refine ⟨c', clock', ?_, ?_, ?_⟩
    · simp only [List.map_cons, replay_lines]
      rw [if_neg hblank, hdec]
      exact hrec
    · rw [hmsgs, add_message_messages]
      simp
    · rw [hid, add_message_id]

theorem replay_lines_blank (dec : String → Except String ChatMessage)
    (lines : List String) (hblank : ∀ line ∈ lines, rust_trim line = "") :
    ∀ (c : Conversation) (clock : Timestamp),
      replay_lines dec lines c clock = Except.ok (c, clock) := by
  induction lines with
  | nil => intro c clock; rfl
  | cons line rest ih =>
    intro c clock
    simp only [replay_lines]
    rw [if_pos (hblank line (List.mem_cons_self _ _))]
    exact ih (fun l hl => hblank l (List.mem_cons_of_mem _ hl)) c clock

theorem load_loop_encoded (dec : String → Except String ChatMessage)
    (enc : ChatMessage → String) (metas : List (Uuid × String)) :
    ∀ (ws : List WrittenConversation) (clock : Timestamp),
      (∀ w ∈ ws, ∀ m ∈ w.messages, dec (enc m) = Except.ok m ∧ rust_trim (enc m) ≠ "") →
      (∀ w ∈ ws, read_metadata metas w.id = some w.title) →
      ∃ convs, load_loop dec metas (ws.map (fun w => (w.id, w.messages.map enc))) clock =
          Except.ok convs ∧
        ∀ w ∈ ws, ∃ c ∈ convs, c.id = w.id ∧ c.messages = w.messages ∧ c.title = w.title := by
  intro ws
  induction ws with
  | nil => intro clock _ _; exact ⟨[], rfl, fun w hw => absurd hw (by simp)⟩
  | cons w ws ih =>
    intro clock hcodec hmeta
    obtain ⟨c', clock', hreplay, hmsgs, hid⟩ :=
      replay_lines_encoded dec enc w.messages (hcodec w (List.mem_cons_self _ _))
        (Conversation.with_id w.id "Restored conversation" clock) (clock + 1)
    obtain ⟨convs, hloop, hprop⟩ :=
      ih clock' (fun v hv => hcodec v (List.mem_cons_of_mem _ hv))
        (fun v hv => hmeta v (List.mem_cons_of_mem _ hv))
    have hidc : c'.id = w.id := by rw [hid]; rfl
    refine ⟨{ c' with title := w.title } :: convs, ?_, ?_⟩
    · simp only [List.map_cons, load_loop]
      rw [hreplay]
      rw [show read_metadata metas w.id = some w.title from hmeta w (List.mem_cons_self _ _)]
      dsimp only
      rw [hloop]
    · intro v hv
      rcases List.mem_cons.1 hv with he | hm
      · subst he
        refine ⟨{ c' with title := v.title }, List.mem_cons_self _ _, hidc, ?_, rfl⟩
        rw [show ({ c' with title := v.title } : Conversation).messages = c'.messages from rfl,
          hmsgs]
        simp [Conversation.with_id]
      · obtain ⟨c, hcmem, hprops⟩ := hprop v hm
        exact ⟨c, List.mem_cons_of_mem _ hcmem, hprops⟩

instance : IsTotal Conversation (fun a b => a.updated_at ≤ b.updated_at) :=
  ⟨fun a b => Nat.le_total a.updated_at b.updated_at⟩

instance : IsTrans Conversation (fun a b => a.updated_at ≤ b.updated_at) :=
  ⟨fun _ _ _ => Nat.le_trans⟩

theorem sort_by_updated_desc_sorted (l : List Conversation) :
    (sort_by_updated_desc l).Pairwise (fun a b => b.updated_at ≤ a.updated_at) := by
  rw [sort_by_updated_desc]
  rw [List.pairwise_reverse]
  exact List.sorted_insertionSort (fun a b => a.updated_at ≤ b.updated_at) l

theorem sort_by_updated_desc_mem (l : List Conversation) (c : Conversation) :
    c ∈ sort_by_updated_desc l ↔ c ∈ l := by
  rw [sort_by_updated_desc, List.mem_reverse]
  exact (List.perm_insertionSort (fun a b => a.updated_at ≤ b.updated_at) l).mem_iff

/-- C6: messages written per conversation via `append_message` and titles via
`persist_metadata` are reproduced by `load_conversations` from the same root:
for every written conversation there is a loaded conversation with the same
id, the identical ordered message sequence (ids, roles, contents,
`created_at`, tool calls — the whole records — in append order) and the same
title, and the returned list is sorted by `updated_at` descending.
`serde_json` is modelled by the codec hypothesis `hcodec` (its round-trip
guarantee, and that an encoded message line is never blank). -/
theorem store_round_trip (enc : ChatMessage → String)
    (dec : String → Except String ChatMessage) (ws : List WrittenConversation)
    (clock : Timestamp)
    (hnodup : (ws.map (fun w => w.id)).Nodup)
    (hne : ∀ w ∈ ws, w.messages ≠ [])
    (hcodec : ∀ w ∈ ws, ∀ m ∈ w.messages,
      dec (enc m) = Except.ok m ∧ rust_trim (enc m) ≠ "") :
    ∃ convs,
      load_conversations dec (write_all enc ws).2 (write_all enc ws).1 clock =
          Except.ok convs ∧
        (∀ w ∈ ws, ∃ c ∈ convs,
          c.id = w.id ∧ c.messages = w.messages ∧ c.title = w.title) ∧
        convs.Pairwise (fun a b => b.updated_at ≤ a.updated_at) := by
  have hwrite := write_all_go enc ws [] [] hnodup hne (by simp) (by simp)
  have hfiles : (write_all enc ws).1 = ws.map (fun w => (w.id, w.messages.map enc)) := by
    rw [write_all, hwrite]; simp
  have hmetas : (write_all enc ws).2 = ws.map (fun w => (w.id, w.title)) := by
    rw [write_all, hwrite]; simp
  obtain ⟨convs, hloop, hprop⟩ :=
    load_loop_encoded dec enc (ws.map (fun w => (w.id, w.title))) ws clock hcodec
      (read_metadata_written ws hnodup)
  refine ⟨sort_by_updated_desc convs, ?_, ?_, sort_by_updated_desc_sorted convs⟩
  · rw [hfiles, hmetas, load_conversations, hloop]
  · intro w hw
    obtain ⟨c, hcmem, hprops⟩ := hprop w hw
    exact ⟨c, (sort_by_updated_desc_mem convs c).2 hcmem, hprops⟩

theorem replay_lines_error (dec : String → Except String ChatMessage) :
    ∀ (pre : List String) (bad : String) (rest : List String) (e : String)
      (c : Conversation) (clock : Timestamp),
      (∀ line ∈ pre, rust_trim line = "" ∨ ∃ m, dec line = Except.ok m) →
      rust_trim bad ≠ "" → dec bad = Except.error e →
      replay_lines dec (pre ++ bad :: rest) c clock = Except.error e := by
  intro pre
  induction pre with
  | nil =>
    intro bad rest e c clock _ hbadblank hbaddec
    simp only [List.nil_append, replay_lines]
    rw [if_neg hbadblank, hbaddec]
  | cons line pre ih =>
    intro bad rest e c clock hpre hbadblank hbaddec
    rcases hpre line (List.mem_cons_self _ _) with hblank | ⟨m, hm⟩
    · simp only [List.cons_append, replay_lines]
      rw [if_pos hblank]
      exact ih bad rest e c clock (fun l hl => hpre l (List.mem_cons_of_mem _ hl))
        hbadblank hbaddec
    · simp only [List.cons_append, replay_lines]
      by_cases hlb : rust_trim line = ""
      · rw [if_pos hlb]
        exact ih bad rest e c clock (fun l hl => hpre l (List.mem_cons_of_mem _ hl))
          hbadblank hbaddec
      · rw [if_neg hlb, hm]
        exact ih bad rest e (c.add_message clock m).1 (clock + 1)
          (fun l hl => hpre l (List.mem_cons_of_mem _ hl)) hbadblank hbaddec

theorem load_loop_error (dec : String → Except String ChatMessage)
    (metas : List (Uuid × String)) (files₂ : List (Uuid × List String)) (id : Uuid)
    (pre : List String) (bad : String) (rest : List String) (e : String)
    (hpre : ∀ line ∈ pre, rust_trim line = "" ∨ ∃ m, dec line = Except.ok m)
    (hbadblank : rust_trim bad ≠ "") (hbaddec : dec bad = Except.error e) :
    ∀ (files₁ : List (Uuid × List String)),
      (∀ f ∈ files₁, ∀ (c : Conversation) (clock' : Timestamp),
        ∃ c' clock'', replay_lines dec f.2 c clock' = Except.ok (c', clock'')) →
      ∀ clock, load_loop dec metas (files₁ ++ (id, pre ++ bad :: rest) :: files₂) clock =
        Except.error e := by
  intro files₁
  induction files₁ with
  | nil =>
    intro _ clock
    simp only [List.nil_append, load_loop]
    rw [replay_lines_error dec pre bad rest e _ _ hpre hbadblank hbaddec]
  | cons f files₁ ih =>
    intro hok clock
    obtain ⟨c', clock'', hreplay⟩ :=
      hok f (List.mem_cons_self _ _) (Conversation.with_id f.1 "Restored conversation" clock)
        (clock + 1)
    have ihh := ih (fun g hg => hok g (List.mem_cons_of_mem _ hg)) clock''
    cases f with
    | mk fid flines =>
      simp only [List.cons_append, load_loop]
      rw [hreplay]
      dsimp only
      simp only [List.append_eq]
      rw [ihh]

/-- C5 (amended): a log file with zero readable (non-blank) lines yields an
empty-but-valid conversation (no error); but a malformed non-blank line —
including a truncated, partially-written last line — does not fail only that
conversation's load: the decode error propagates out of
`load_conversations`, so the entire load (every conversation, including ones
whose files are perfectly readable) fails with that error. -/
theorem load_error_propagation :
    (∀ (dec : String → Except String ChatMessage) (metas : List (Uuid × String))
        (id : Uuid) (lines : List String) (clock : Timestamp),
        (∀ line ∈ lines, rust_trim line = "") →
        ∃ c, load_conversations dec metas [(id, lines)] clock = Except.ok [c] ∧
          c.messages = [] ∧ c.id = id) ∧
      (∀ (dec : String → Except String ChatMessage) (metas : List (Uuid × String))
          (files₁ files₂ : List (Uuid × List String)) (id : Uuid)
          (pre : List String) (bad : String) (rest : List String)
          (clock : Timestamp) (e : String),
          (∀ line ∈ pre, rust_trim line = "" ∨ ∃ m, dec line = Except.ok m) →
          rust_trim bad ≠ "" → dec bad = Except.error e →
          (∀ f ∈ files₁, ∀ (c : Conversation) (clock' : Timestamp),
            ∃ c' clock'', replay_lines dec f.2 c clock' = Except.ok (c', clock'')) →
          load_conversations dec metas (files₁ ++ (id, pre ++ bad :: rest) :: files₂)
              clock = Except.error e) := by
  constructor
  · intro dec metas id lines clock hblank
    have hreplay := replay_lines_blank dec lines hblank
      (Conversation.with_id id "Restored conversation" clock) (clock + 1)
    cases hmeta : read_metadata metas id with
    | none =>
      refine ⟨Conversation.with_id id "Restored conversation" clock, ?_, rfl, rfl⟩
      simp only [load_conversations, load_loop]
      rw [hreplay]
      dsimp only
      rw [hmeta]
      simp [sort_by_updated_desc]
    | some title =>
      refine ⟨{ Conversation.with_id id "Restored conversation" clock with
        title := title }, ?_, rfl, rfl⟩
      simp only [load_conversations, load_loop]
      rw [hreplay]
      dsimp only
      rw [hmeta]
      simp [sort_by_updated_desc]
  · intro dec metas files₁ files₂ id pre bad rest clock e hpre hbadblank hbaddec hok
    simp only [load_conversations]
    rw [load_loop_error dec metas files₂ id pre bad rest e hpre hbadblank hbaddec
      files₁ hok clock]


def msg1 : ChatMessage :=
  { id := 1, role := MessageRole.user, content := "hi", created_at := 0, tool_calls := [] }

def msg2 : ChatMessage :=
  { id := 2, role := MessageRole.assistant, content := "yo", created_at := 1, tool_calls := [] }

/-- Concrete witness codec standing in for `serde_json` on the handful of
messages the witnesses use. -/
def enc_test : ChatMessage → String :=
  fun m => if m.id = 1 then "M1" else if m.id = 2 then "M2" else "unmapped"

def dec_test : String → Except String ChatMessage :=
  fun s =>
    if s = "M1" then Except.ok msg1
    else if s = "M2" then Except.ok msg2
    else Except.error "invalid JSON"

/-- C5 counterexample: conversation 5's log is fully readable and loads fine
on its own, but one malformed line in conversation 6's log (and likewise a
truncated last line after a good line) makes the whole `load_conversations`
return an error — conversation 5 is lost too, refuting "fails only that
conversation's load" and "a truncated last line is ignored". -/
theorem load_malformed_counterexample :
    load_conversations dec_test [(5, "t5")] [(5, ["M1"]), (6, ["garbage"])] 100 =
        Except.error "invalid JSON" ∧
      load_conversations dec_test [(5, "t5")] [(5, ["M1"])] 100 =
        Except.ok [{ id := 5, title := "t5", created_at := 100, updated_at := 101,
                     messages := [msg1] }] ∧
      load_conversations dec_test [] [(6, ["M1", "garbag"])] 100 =
        Except.error "invalid JSON" := by
  refine ⟨?_, ?_, ?_⟩ <;> decide

/-- C5 witness: concrete instantiations of `load_error_propagation` — a
blank-only log loads as an empty-but-valid conversation, and a malformed line
behind a healthy file fails the entire load. -/
theorem load_error_propagation_witness :
    (∃ c, load_conversations dec_test [] [(6, ["", "  "])] 100 = Except.ok [c] ∧
        c.messages = [] ∧ c.id = 6) ∧
      load_conversations dec_test [(5, "t5")] [(5, ["M1"]), (6, ["", "garbage"])] 100 =
        Except.error "invalid JSON" :=
  ⟨load_error_propagation.1 dec_test [] 6 ["", "  "] 100 (by decide),
   load_error_propagation.2 dec_test [(5, "t5")] [(5, ["M1"])] [] 6 [""] "garbage" []
     100 "invalid JSON"
     (by intro line hl; simp at hl; subst hl; left; rfl)
     (by decide) (by decide)
     (fun f hf c clock' => by
       simp at hf
       subst hf
       refine ⟨(c.add_message clock' msg1).1, clock' + 1, ?_⟩
       show replay_lines dec_test ["M1"] c clock' = _
       simp only [replay_lines]
       rw [if_neg (by decide : ¬ rust_trim "M1" = "")]
       rw [show dec_test "M1" = Except.ok msg1 from by decide])⟩

/-- C6 witness: concrete instantiation of `store_round_trip` for two written
conversations of one message each, under the concrete witness codec. -/
theorem store_round_trip_witness :
    ∃ convs,
      load_conversations dec_test
          (write_all enc_test [⟨5, "t5", [msg1]⟩, ⟨6, "t6", [msg2]⟩]).2
          (write_all enc_test [⟨5, "t5", [msg1]⟩, ⟨6, "t6", [msg2]⟩]).1 100 =
          Except.ok convs ∧
        (∀ w ∈ ([⟨5, "t5", [msg1]⟩, ⟨6, "t6", [msg2]⟩] : List WrittenConversation),
          ∃ c ∈ convs, c.id = w.id ∧ c.messages = w.messages ∧ c.title = w.title) ∧
        convs.Pairwise (fun a b => b.updated_at ≤ a.updated_at) :=
  store_round_trip enc_test dec_test [⟨5, "t5", [msg1]⟩, ⟨6, "t6", [msg2]⟩] 100
    (by decide) (by decide) (by decide)

end Patina
